import Mathlib

/-!
Verification development for the `concat-files` utility
(`src/concat-files.py`, most feature-complete revision, and
`src/scripts/concat-files.py`, the earliest revision).

The Python code is shallowly embedded: the filesystem is an explicit value
(`FS`) mapping absolute paths to file contents and directories to their raw
`os.listdir` results; every Python function operating on the filesystem takes
the `FS` (and, where `os.path.abspath` is involved, the current working
directory `cwd`) as an explicit argument.  File writes are modelled by
returning the written string.  String utilities (`split`, `strip`,
`basename`, ...) are re-implemented structurally on `List Char` so that the
kernel can evaluate them on concrete inputs.
-/

/-- Python `str.split(sep)` on character lists: `splitCharOn c cs` splits `cs` at
every occurrence of `c`, keeping empty segments (Python `"".split("\n") = [""]`,
`"a\n".split("\n") = ["a", ""]`). -/
def splitCharOn (sep : Char) : List Char → List (List Char)
  | [] => [[]]
  | c :: cs =>
    let rest := splitCharOn sep cs
    if c = sep then [] :: rest
    else (c :: rest.headD []) :: rest.tail

/-- Split a string into its `"\n"`-separated lines (Python `content.split("\n")`;
iterating a text file and stripping each line yields the same tokens). -/
def splitLines (s : String) : List String :=
  (splitCharOn (Char.ofNat 10) s.toList).map String.mk

/-- Python `str.strip()` on character lists: drop leading and trailing
whitespace. -/
def stripChars (cs : List Char) : List Char :=
  ((cs.dropWhile Char.isWhitespace).reverse.dropWhile Char.isWhitespace).reverse

/-- Python `str.strip()`. -/
def pystrip (s : String) : String :=
  String.mk (stripChars s.toList)

/-- Models `os.path.basename` (POSIX): the part of the path after the last `/`. -/
def basenameChars (cs : List Char) : List Char :=
  (splitCharOn (Char.ofNat 47) cs).getLastD []

/-- Models `os.path.basename` on strings. -/
def basename (p : String) : String :=
  String.mk (basenameChars p.toList)

/-- Truthiness of `os.path.splitext(p)[1]`: the basename, after its leading
run of dots, contains a further dot (POSIX `splitext` never treats leading
dots of the basename as starting an extension). -/
def hasExt (p : String) : Bool :=
  ((basenameChars p.toList).dropWhile (fun c => c = Char.ofNat 46)).contains (Char.ofNat 46)

/-- Models `os.path.isabs` (POSIX): the path starts with `/`. -/
def isabs (p : String) : Bool :=
  match p.toList with
  | c :: _ => c = Char.ofNat 47
  | [] => false

/-- Models `os.path.join base p` (POSIX, two arguments): an absolute `p` discards
`base`; otherwise a single `/` separates them unless `base` is empty or
already ends in `/`. -/
def joinPath (base p : String) : String :=
  if isabs p then p
  else if base = "" then p
  else if base.toList.getLastD (Char.ofNat 32) = Char.ofNat 47 then base ++ p
  else base ++ "/" ++ p

/-- Models `os.path.abspath p` relative to the current working directory `cwd`:
`join(cwd, p)` (path normalisation of an already-clean path is the identity
and is not modelled). -/
def abspath (cwd p : String) : String :=
  joinPath cwd p

/-- A single-quote character as a string (used by the not-found placeholder). -/
def SQ : String :=
  String.singleton (Char.ofNat 39)

/-- The filesystem visible to the tool: an association list from absolute
file paths to their contents, and one from directory paths to the raw
(unsorted) `os.listdir` result. -/
structure FS where
  files : List (String × String)
  dirlist : List (String × List String)

/-- Models `open(p).read()`: the content of file `p` (defaults to `""`; only ever
used behind an `isfile` check, mirroring the code). -/
def FS.read (fs : FS) (p : String) : String :=
  (fs.files.lookup p).getD ""

/-- Models `os.path.isfile p`: `p` is a non-empty path bound in the file table. -/
def FS.isfile (fs : FS) (p : String) : Bool :=
  p != "" && (fs.files.lookup p).isSome

/-- Models `os.listdir d`: the raw directory listing, in whatever order the OS
reports it. -/
def FS.listdir (fs : FS) (d : String) : List String :=
  (fs.dirlist.lookup d).getD []

/-- Delimiter constants of `src/concat-files.py`, lines 22-35. -/
def START_SEP : String := "<<<BLOCK_START>>>"

def END_SEP : String := "<<<BLOCK_END>>>"

def REQUEST_START_SEP : String := "<<<BLOCK_START>>> REQUEST_BODY"

def REQUEST_END_SEP : String := "<<<BLOCK_END>>> REQUEST_BODY"

def REQUEST_HEADER_START_SEP : String := "<<<BLOCK_START>>> REQUEST_HEADER"

def REQUEST_HEADER_END_SEP : String := "<<<BLOCK_END>>> REQUEST_HEADER"

def ERROR_APPEND_STRING : String :=
  "The REQUEST_BODY contains console output with the error that needs to be solved.\n"

/-- Models `read_text_from_file_or_string` (lines 37-41): if `value` is truthy and
an existing file, return its content, else return `value` itself. -/
def read_text_from_file_or_string (fs : FS) (value : String) : String :=
  if value != "" && fs.isfile value then fs.read value else value

/-- The header section written by `combine_files` (lines 45-51): nothing when
`request_header` is absent or falsy (empty); otherwise the header delimiters
around the resolved header content, with the fixed error note appended when
`append_error` is set. -/
def headerSection (fs : FS) (request_header : Option String) (append_error : Bool) : String :=
  match request_header with
  | none => ""
  | some h =>
    if h = "" then ""
    else
      REQUEST_HEADER_START_SEP ++ "\n" ++ read_text_from_file_or_string fs h ++ "\n" ++
      (if append_error then "\n" ++ ERROR_APPEND_STRING else "") ++
      REQUEST_HEADER_END_SEP ++ "\n\n"

/-- The request section written by `combine_files` (lines 52-56): present only
when a request path is supplied and is an existing file. -/
def requestSection (fs : FS) (request_file_path : Option String) : String :=
  match request_file_path with
  | none => ""
  | some r =>
    if fs.isfile r then REQUEST_START_SEP ++ "\n" ++ fs.read r ++ REQUEST_END_SEP ++ "\n\n"
    else ""

/-- One iteration of the file loop of `combine_files` (lines 58-66): the
start delimiter line with the basename, the file content (or the not-found
placeholder), a newline, the end delimiter line, and a blank separator line. -/
def fileBlock (fs : FS) (file_path : String) : String :=
  let display_name := basename file_path
  START_SEP ++ " " ++ display_name ++ "\n" ++
  (if fs.isfile file_path then fs.read file_path
   else "[Warning: file " ++ SQ ++ file_path ++ SQ ++ " not found]\n") ++
  "\n" ++ END_SEP ++ " " ++ display_name ++ "\n\n"

/-- The file loop of `combine_files`, written sequentially. -/
def filesSection (fs : FS) : List String → String
  | [] => ""
  | f :: rest => fileBlock fs f ++ filesSection fs rest

/-- Models `combine_files` (lines 43-66): the full content written to the output
file (the file is opened with mode `w`, so this replaces any previous
content). -/
def combine_files (fs : FS) (input_files : List String) (request_file_path : Option String)
    (request_header : Option String) (append_error : Bool) : String :=
  headerSection fs request_header append_error ++
  requestSection fs request_file_path ++
  filesSection fs input_files

/-- Lexicographic (code-point) comparison of character lists, the order
Python uses to compare strings. -/
def charListLe : List Char → List Char → Bool
  | [], _ => true
  | _ :: _, [] => false
  | a :: as, b :: bs =>
    if a.toNat < b.toNat then true
    else if b.toNat < a.toNat then false
    else charListLe as bs

/-- Lexicographic (code-point) order on strings. -/
def strLe (a b : String) : Prop :=
  charListLe a.toList b.toList = true

instance strLe.decRel : DecidableRel strLe := by
  intro a b
  unfold strLe
  infer_instance

/-- Python `sorted` on strings: stable sort by lexicographic code-point
order. -/
def sortStrings (l : List String) : List String :=
  List.insertionSort strLe l

/-- Models `get_files_from_folder` (lines 68-73): the names reported by
`os.listdir`, sorted, kept when joining them to the folder yields a regular
file, each joined to the folder path. -/
def get_files_from_folder (fs : FS) (folder_path : String) : List String :=
  ((sortStrings (fs.listdir folder_path)).filter
    (fun f => fs.isfile (joinPath folder_path f))).map
    (fun f => joinPath folder_path f)

/-- Python `s.split(None, 1)` applied to an already-stripped string: empty
input yields no parts; otherwise the text before the first whitespace run,
and — when a whitespace run follows — the remainder after that run. -/
def splitNone1 (s : String) : List String :=
  let cs := s.toList
  if cs = [] then []
  else
    let first := cs.takeWhile (fun c => !c.isWhitespace)
    let rest := (cs.dropWhile (fun c => !c.isWhitespace)).dropWhile (fun c => c.isWhitespace)
    if rest = [] then [String.mk first] else [String.mk first, String.mk rest]

/-- The loop body of `read_codes_mapping` (lines 78-82): a line is stripped
and split into at most two whitespace-separated parts; only a line yielding
exactly a code and a path updates the dictionary (`mapping[code] = path`),
any other line is ignored. -/
def mappingStep (mapping : String → Option String) (line : String) : String → Option String :=
  match splitNone1 (pystrip line) with
  | [code, path] => fun k => if k = code then some path else mapping k
  | _ => mapping

/-- Models `read_codes_mapping` (lines 75-83), the dictionary modelled as a lookup
function, starting empty and processing the lines of the mapping file in
order. -/
def read_codes_mapping (content : String) : String → Option String :=
  (splitLines content).foldl mappingStep (fun _ => none)

/-- Reference reading of the mapping file, recursing from the last line: the
binding a code receives is the path of the last well-formed line carrying
that code. Used to state what `read_codes_mapping` computes. -/
def lastBinding (lines : List String) (code : String) : Option String :=
  match lines with
  | [] => none
  | l :: ls =>
    match lastBinding ls code with
    | some p => some p
    | none =>
      match splitNone1 (pystrip l) with
      | [c, p] => if code = c then some p else none
      | _ => none

/-- Models `read_codes_list` (lines 85-92): the stripped non-empty lines of the
codes-list file, in file order. -/
def read_codes_list (content : String) : List String :=
  ((splitLines content).map pystrip).filter (fun c => c != "")

/-- The body of the inner loop of `resolve_file_paths` (lines 112-121) for a
single base directory: the exact candidate `abspath(join(base_dir, p))` if it
is a file, else — only when `p` has no extension — the candidate with `.txt`
appended if that is a file, else no match. -/
def dirMatch (fs : FS) (cwd p base_dir : String) : Option String :=
  let candidate := abspath cwd (joinPath base_dir p)
  if fs.isfile candidate then some candidate
  else if !hasExt p && fs.isfile (candidate ++ ".txt") then some (candidate ++ ".txt")
  else none

/-- The inner loop of `resolve_file_paths` over `base_dirs` with its `break`:
the first directory producing a match wins. -/
def findInDirs (fs : FS) (cwd p : String) : List String → Option String
  | [] => none
  | d :: ds =>
    match dirMatch fs cwd p d with
    | some c => some c
    | none => findInDirs fs cwd p ds

/-- One iteration of the outer loop of `resolve_file_paths` (lines 106-129):
an absolute existing path is kept as is; otherwise the base directories are
searched in order; otherwise the fallback is the identifier made absolute
against the current directory, with the `.txt` variant preferred when `p`
has no extension and that variant exists. -/
def resolve_one (fs : FS) (cwd : String) (base_dirs : List String) (p : String) : String :=
  if isabs p && fs.isfile p then p
  else
    match findInDirs fs cwd p base_dirs with
    | some found => found
    | none =>
      let abs_path := abspath cwd p
      if !hasExt p && fs.isfile (abs_path ++ ".txt") then abs_path ++ ".txt"
      else abs_path

/-- Models `resolve_file_paths` (lines 104-130): the outer loop, appending one
resolved path per input identifier. -/
def resolve_file_paths (fs : FS) (cwd : String) (input_paths : List String)
    (base_dirs : List String) : List String :=
  match input_paths with
  | [] => []
  | p :: rest => resolve_one fs cwd base_dirs p :: resolve_file_paths fs cwd rest base_dirs

/-- The codes loop of `main` (lines 217-223): walk the codes in order,
appending each mapped path to the raw input list and each unmapped code to
the missing list. -/
def collectFilesAndMissing (codes : List String) (mapping : String → Option String) :
    List String × List String :=
  match codes with
  | [] => ([], [])
  | c :: cs =>
    let rest := collectFilesAndMissing cs mapping
    match mapping c with
    | some p => (p :: rest.1, rest.2)
    | none => (rest.1, c :: rest.2)

/-- Outcome of a run of the codes branch of `main`: either `sys.exit(1)` after
printing every missing code (no output file is opened or written), or the
content written to the output file. -/
inductive RunResult where
  | fatalMissing (missing : List String)
  | wrote (output : String)
deriving DecidableEq

/-- Models `main`, codes mode, from the missing-code check onward (lines 217-249):
if any code is unmapped the run exits with status 1 reporting all missing
codes and `combine_files` is never reached; otherwise the mapped raw paths
are resolved against the work directories and the output file is written. -/
def codesModeRun (fs : FS) (cwd : String) (codes : List String)
    (mapping : String → Option String) (work_dirs : List String)
    (request_file_path : Option String) (request_header : Option String)
    (append_error : Bool) : RunResult :=
  let collected := collectFilesAndMissing codes mapping
  if collected.2.isEmpty then
    RunResult.wrote
      (combine_files fs (resolve_file_paths fs cwd collected.1 work_dirs)
        request_file_path request_header append_error)
  else RunResult.fatalMissing collected.2

/-- Spec-side shape of one output block: a `BLOCK_START` delimiter line
carrying the display name, the exact file content, then the end-delimiter
framing `"\n" ++ BLOCK_END line ++ blank line`. -/
def specBlock (name content : String) : String :=
  START_SEP ++ " " ++ name ++ "\n" ++ content ++ "\n" ++ END_SEP ++ " " ++ name ++ "\n\n"

/-- Spec-side post-processing for the round-trip property: drop every
delimiter line and every blank separator line of the output, keep the rest. -/
def stripDelimiterLines (s : String) : List String :=
  (splitLines s).filter
    (fun l =>
      !(START_SEP.toList.isPrefixOf l.toList) &&
      !(END_SEP.toList.isPrefixOf l.toList) &&
      l != "")

/-- Concatenation of a list of strings, used to state the shape of the
assembled output. -/
def concatAll : List String → String
  | [] => ""
  | s :: rest => s ++ concatAll rest

/-- Concrete filesystem used to instantiate the theorems: a work directory
`/w` holding `f.txt` (content `hello`) and a header file `h.txt`, two
directories `/A` and `/B` both holding `x.txt`, and nothing else. -/
def fsW : FS :=
  ⟨[("/w/f.txt", "hello"), ("/w/h.txt", "HDR"), ("/A/x.txt", "ax"), ("/B/x.txt", "bx")], []⟩

/-- Concrete filesystem with a directory `/d` whose raw listing reports
`b.txt, a.txt, c.md, sub` (creation order), the first three being regular
files and `sub` a sub-directory. -/
def fsD : FS :=
  ⟨[("/d/a.txt", "1"), ("/d/b.txt", "2"), ("/d/c.md", "3")],
   [("/d", ["b.txt", "a.txt", "c.md", "sub"])]⟩

/-- Variant of `fsD` with the same files but the raw listing of `/d` reported in a
different order. -/
def fsD2 : FS :=
  ⟨[("/d/a.txt", "1"), ("/d/b.txt", "2"), ("/d/c.md", "3")],
   [("/d", ["sub", "c.md", "b.txt", "a.txt"])]⟩

/-! ## Helper lemmas -/

theorem charListLe_total : ∀ (as bs : List Char),
    charListLe as bs = true ∨ charListLe bs as = true := by
  intro as
  induction as with
  | nil => intro bs; left; rfl
  | cons a as ih =>
    intro bs
    cases bs with
    | nil => right; rfl
    | cons b bs =>
      simp only [charListLe]
      rcases Nat.lt_trichotomy a.toNat b.toNat with h | h | h
      · simp [h]
      · simp only [h, Nat.lt_irrefl, if_false]
        exact ih bs
      · simp [h, Nat.lt_asymm h]

theorem charListLe_trans : ∀ (as bs cs : List Char), charListLe as bs = true →
    charListLe bs cs = true → charListLe as cs = true := by
  intro as
  induction as with
  | nil => intro bs cs _ _; rfl
  | cons a as ih =>
    intro bs cs h1 h2
    cases bs with
    | nil => simp [charListLe] at h1
    | cons b bs =>
      cases cs with
      | nil => simp [charListLe] at h2
      | cons c cs =>
        simp only [charListLe] at h1 h2 ⊢
        rcases Nat.lt_trichotomy a.toNat b.toNat with hab | hab | hab
        · rcases Nat.lt_trichotomy b.toNat c.toNat with hbc | hbc | hbc
          · have hac : a.toNat < c.toNat := by omega
            simp [hac]
          · have hac : a.toNat < c.toNat := by omega
            simp [hac]
          · simp [Nat.lt_asymm hbc, hbc] at h2
        · rcases Nat.lt_trichotomy b.toNat c.toNat with hbc | hbc | hbc
          · have hac : a.toNat < c.toNat := by omega
            simp [hac]
          · have h1x : charListLe as bs = true := by simpa [hab] using h1
            have h2x : charListLe bs cs = true := by simpa [hbc] using h2
            have hac : a.toNat = c.toNat := by omega
            simp only [hac, Nat.lt_irrefl, if_false]
            exact ih bs cs h1x h2x
          · simp [Nat.lt_asymm hbc, hbc] at h2
        · simp [Nat.lt_asymm hab, hab] at h1

theorem charListLe_antisymm : ∀ (as bs : List Char), charListLe as bs = true →
    charListLe bs as = true → as = bs := by
  intro as
  induction as with
  | nil =>
    intro bs _ h2
    cases bs with
    | nil => rfl
    | cons b bs => simp [charListLe] at h2
  | cons a as ih =>
    intro bs h1 h2
    cases bs with
    | nil => simp [charListLe] at h1
    | cons b bs =>
      simp only [charListLe] at h1 h2
      rcases Nat.lt_trichotomy a.toNat b.toNat with hab | hab | hab
      · simp [Nat.lt_asymm hab, hab] at h2
      · have h1x : charListLe as bs = true := by simpa [hab] using h1
        have h2x : charListLe bs as = true := by simpa [hab] using h2
        have hch : a = b := Char.ext (UInt32.ext hab)
        rw [hch, ih bs h1x h2x]
      · simp [Nat.lt_asymm hab, hab] at h1

theorem strLe_total : ∀ (a b : String), strLe a b ∨ strLe b a := by
  intro a b
  exact charListLe_total a.toList b.toList

theorem strLe_trans : ∀ (a b c : String), strLe a b → strLe b c → strLe a c := by
  intro a b c h1 h2
  exact charListLe_trans a.toList b.toList c.toList h1 h2

theorem strLe_antisymm : ∀ (a b : String), strLe a b → strLe b a → a = b := by
  intro a b h1 h2
  exact String.ext (charListLe_antisymm a.toList b.toList h1 h2)

theorem sortStrings_sorted (l : List String) : List.Sorted strLe (sortStrings l) := by
  haveI : IsTotal String strLe := ⟨strLe_total⟩
  haveI : IsTrans String strLe := ⟨strLe_trans⟩
  exact List.sorted_insertionSort strLe l

theorem sortStrings_perm (l : List String) : List.Perm (sortStrings l) l :=
  List.perm_insertionSort strLe l

theorem findInDirs_all_none (fs : FS) (cwd p : String) :
    ∀ (ds : List String), (∀ d ∈ ds, dirMatch fs cwd p d = none) →
      findInDirs fs cwd p ds = none := by
  intro ds
  induction ds with
  | nil => intro _; rfl
  | cons d ds ih =>
    intro h
    have hd : dirMatch fs cwd p d = none := h d (by simp)
    have hds := ih (fun d0 hd0 => h d0 (by simp [hd0]))
    simp [findInDirs, hd, hds]

theorem mappingFold_lookup : ∀ (lines : List String) (m : String → Option String) (k : String),
    (lines.foldl mappingStep m) k =
      match lastBinding lines k with
      | some p => some p
      | none => m k := by
  intro lines
  induction lines with
  | nil => intro m k; rfl
  | cons l ls ih =>
    intro m k
    rw [List.foldl_cons, ih]
    show _ = (match lastBinding (l :: ls) k with | some p => some p | none => m k)
    cases hlb : lastBinding ls k with
    | some p =>
      simp only [lastBinding, hlb]
    | none =>
      simp only [lastBinding, hlb]
      unfold mappingStep
      cases hsp : splitNone1 (pystrip l) with
      | nil => simp
      | cons a t =>
        cases t with
        | nil => simp
        | cons b t2 =>
          cases t2 with
          | nil =>
            by_cases hk : k = a <;> simp [hk]
          | cons c t3 => simp

theorem collect_snd_eq_filter (mapping : String → Option String) :
    ∀ (codes : List String),
      (collectFilesAndMissing codes mapping).2 =
        codes.filter (fun c => (mapping c).isNone) := by
  intro codes
  induction codes with
  | nil => rfl
  | cons c cs ih =>
    cases hm : mapping c with
    | none => simp [collectFilesAndMissing, hm, List.filter, ih, Option.isNone]
    | some p => simp [collectFilesAndMissing, hm, List.filter, ih, Option.isNone]

theorem collect_fst_eq_filterMap (mapping : String → Option String) :
    ∀ (codes : List String),
      (collectFilesAndMissing codes mapping).1 = codes.filterMap mapping := by
  intro codes
  induction codes with
  | nil => rfl
  | cons c cs ih =>
    cases hm : mapping c with
    | none => simp [collectFilesAndMissing, hm, List.filterMap_cons, ih]
    | some p => simp [collectFilesAndMissing, hm, List.filterMap_cons, ih]

/-! ## Claim theorems -/

/-- C9: when loading the code-to-path mapping file, for every code that
occurs on more than one line the path from the last occurrence wins — the
mapping binds each code to the path of the last well-formed line carrying
it — and lines that do not split into exactly a code and a path are
ignored (they contribute no binding in `lastBinding`). -/
theorem mapping_last_occurrence_wins (content code : String) :
    read_codes_mapping content code = lastBinding (splitLines content) code := by
  unfold read_codes_mapping
  rw [mappingFold_lookup]
  cases lastBinding (splitLines content) code <;> rfl

/-- C10: `resolve_file_paths` returns a list of the same length as its
input, the `i`-th output being the resolution of the `i`-th input
identifier (order and multiplicity preserved); every entry is a genuine
path (`resolve_one` is total, so no entry is ever `None`). -/
theorem resolve_preserves_shape (fs : FS) (cwd : String) (input_paths base_dirs : List String) :
    (resolve_file_paths fs cwd input_paths base_dirs).length = input_paths.length
    ∧ ∀ i : Nat, (resolve_file_paths fs cwd input_paths base_dirs)[i]? =
        (input_paths[i]?).map (fun p => resolve_one fs cwd base_dirs p) := by
  induction input_paths with
  | nil => exact ⟨rfl, fun i => by simp [resolve_file_paths]⟩
  | cons p rest ih =>
    constructor
    · simp [resolve_file_paths, ih.1]
    · intro i
      cases i with
      | zero => simp [resolve_file_paths]
      | succ n => simp [resolve_file_paths, ih.2 n]

/-- C8: for every header argument value, if the value names an existing
file its content is substituted as the header text, and otherwise the value
itself is used verbatim. -/
theorem header_value_file_or_literal (fs : FS) (v : String) :
    (fs.isfile v = true → read_text_from_file_or_string fs v = fs.read v)
    ∧ (fs.isfile v = false → read_text_from_file_or_string fs v = v) := by
  constructor
  · intro hf
    have hv : (v != "") = true := by
      unfold FS.isfile at hf
      exact ((Bool.and_eq_true _ _).mp hf).1
    simp [read_text_from_file_or_string, hf, hv]
  · intro hf
    simp [read_text_from_file_or_string, hf]

/-- Witness for C8: on `fsW`, the existing file `/w/h.txt` is substituted
by its content and the non-file value `build failed` is used verbatim. -/
theorem header_value_file_or_literal_w :
    (fsW.isfile "/w/h.txt" = true
      ∧ read_text_from_file_or_string fsW "/w/h.txt" = fsW.read "/w/h.txt")
    ∧ (fsW.isfile "build failed" = false
      ∧ read_text_from_file_or_string fsW "build failed" = "build failed") :=
  ⟨⟨by decide, (header_value_file_or_literal fsW "/w/h.txt").1 (by decide)⟩,
   ⟨by decide, (header_value_file_or_literal fsW "build failed").2 (by decide)⟩⟩

/-- C2: in codes mode, whenever at least one code is absent from the
mapping, the run reports exactly the missing codes — all of them, in codes
order — and terminates with exit status 1 before any output is produced
(`RunResult.fatalMissing` is returned instead of `RunResult.wrote`, the
`sys.exit(1)` happening before `combine_files` is reached). -/
theorem codes_missing_fatal (fs : FS) (cwd : String) (codes : List String)
    (mapping : String → Option String) (work_dirs : List String)
    (request_file_path request_header : Option String) (append_error : Bool)
    (h : ∃ c ∈ codes, mapping c = none) :
    codesModeRun fs cwd codes mapping work_dirs request_file_path request_header append_error =
      RunResult.fatalMissing (codes.filter (fun c => (mapping c).isNone)) := by
  obtain ⟨c, hc, hmc⟩ := h
  have hsnd := collect_snd_eq_filter mapping codes
  have hne : (collectFilesAndMissing codes mapping).2.isEmpty = false := by
    rw [hsnd]
    have hmem : c ∈ codes.filter (fun c => (mapping c).isNone) :=
      List.mem_filter.mpr ⟨hc, by simp [hmc]⟩
    cases hflt : codes.filter (fun c => (mapping c).isNone) with
    | nil => rw [hflt] at hmem; exact absurd hmem (List.not_mem_nil c)
    | cons x xs => rfl
  simp only [codesModeRun, hne, Bool.false_eq_true, if_false]
  rw [hsnd]

/-- Witness for C2: codes `K1, K2` against the mapping loaded from the
single line `K1 a.txt` make the run fail with exactly `K2` reported. -/
theorem codes_missing_fatal_w :
    (∃ c ∈ ["K1", "K2"], read_codes_mapping "K1 a.txt" c = none)
    ∧ codesModeRun fsW "/c" ["K1", "K2"] (read_codes_mapping "K1 a.txt") ["/w"] none none false =
        RunResult.fatalMissing ["K2"] := by
  refine ⟨⟨"K2", by simp, by rfl⟩, ?_⟩
  rw [codes_missing_fatal fsW "/c" ["K1", "K2"] (read_codes_mapping "K1 a.txt") ["/w"]
    none none false ⟨"K2", by simp, by rfl⟩]
  rfl

/-- C1: for every ordered list of resolved paths that are all existing
files, the output of `combine_files` (default settings: no header, no
request file) is exactly the concatenation, in input order, of one
delimiter block per input file, each block being the `BLOCK_START` line
with the basename of the file, the exact byte content of the file, and the
`BLOCK_END` framing — so exactly one delimiter pair per file, pairs in
input order, the `i`-th pair wrapping the content of the `i`-th file. -/
theorem combine_exact_blocks (fs : FS) (files : List String)
    (h : ∀ f ∈ files, fs.isfile f = true) :
    combine_files fs files none none false =
      concatAll (files.map (fun f => specBlock (basename f) (fs.read f))) := by
  have hsec : ∀ (l : List String), (∀ f ∈ l, fs.isfile f = true) →
      filesSection fs l = concatAll (l.map fun f => specBlock (basename f) (fs.read f)) := by
    intro l
    induction l with
    | nil => intro _; rfl
    | cons f rest ih =>
      intro hl
      have hf : fs.isfile f = true := hl f (by simp)
      have hr := ih (fun g hg => hl g (by simp [hg]))
      simp only [filesSection, List.map_cons, concatAll, hr]
      unfold fileBlock specBlock
      simp [hf, String.append_assoc]
  show "" ++ ("" ++ filesSection fs files) = _
  rw [String.empty_append, String.empty_append]
  exact hsec files h

/-- Witness for C1: two existing files on `fsW`, both hypothesis and
conclusion at a concrete input. -/
theorem combine_exact_blocks_w :
    (∀ f ∈ ["/w/f.txt", "/A/x.txt"], fsW.isfile f = true)
    ∧ combine_files fsW ["/w/f.txt", "/A/x.txt"] none none false =
        concatAll (["/w/f.txt", "/A/x.txt"].map (fun f => specBlock (basename f) (fsW.read f))) :=
  ⟨by decide, combine_exact_blocks fsW ["/w/f.txt", "/A/x.txt"] (by decide)⟩

/-- C5: concatenating the single file `/w/f.txt` with content `hello`
under default settings (no header, no request file) yields an output
whose lines, after dropping the delimiter lines and the blank separator
lines they introduce, are exactly `hello`. -/
theorem single_file_roundtrip :
    stripDelimiterLines (combine_files fsW ["/w/f.txt"] none none false) = ["hello"] := by
  decide

/-- C7: with a (truthy) header value and the error flag set, the output is
the header block — `REQUEST_HEADER` start delimiter, the header text, the
fixed console-error note, `REQUEST_HEADER` end delimiter — followed by the
rest of the output (request block, then the `BLOCK_START` file sections),
so the whole header block precedes the request block and every file
section. -/
theorem header_error_before_blocks (fs : FS) (files : List String)
    (request_file_path : Option String) (h : String) (hne : h ≠ "") :
    combine_files fs files request_file_path (some h) true =
      REQUEST_HEADER_START_SEP ++ "\n" ++ read_text_from_file_or_string fs h ++ "\n" ++
      ("\n" ++ ERROR_APPEND_STRING) ++ REQUEST_HEADER_END_SEP ++ "\n\n" ++
      combine_files fs files request_file_path none false := by
  unfold combine_files headerSection
  simp [hne, String.append_assoc, String.empty_append]

/-- Witness for C7: the literal header `build failed` with the error flag. -/
theorem header_error_before_blocks_w :
    "build failed" ≠ "" ∧
    combine_files fsW [] none (some "build failed") true =
      REQUEST_HEADER_START_SEP ++ "\n" ++ read_text_from_file_or_string fsW "build failed" ++ "\n" ++
      ("\n" ++ ERROR_APPEND_STRING) ++ REQUEST_HEADER_END_SEP ++ "\n\n" ++
      combine_files fsW [] none none false :=
  ⟨by decide, header_error_before_blocks fsW [] none "build failed" (by decide)⟩

/-- C3: path resolution is deterministic (a pure function of the identifier
and the directory list) and, for a fixed identifier: (1) the match from the
first directory in list order that yields one wins — in particular with
directories `A` before `B` both containing the file, the copy in `A` is
selected; (2) when the identifier has an extension, only the exact name is
ever tried in a directory (no `.txt` suffix); (3) within each directory the
exact name is tried before the `.txt`-suffixed name. -/
theorem resolution_first_dir_wins (fs : FS) (cwd p : String) :
    (∀ (ds₁ : List String) (d : String) (ds₂ : List String),
        (∀ d₀ ∈ ds₁, dirMatch fs cwd p d₀ = none) → dirMatch fs cwd p d ≠ none →
        findInDirs fs cwd p (ds₁ ++ d :: ds₂) = dirMatch fs cwd p d)
    ∧ (∀ d : String, hasExt p = true →
        dirMatch fs cwd p d =
          (if fs.isfile (abspath cwd (joinPath d p)) then some (abspath cwd (joinPath d p))
           else none))
    ∧ (∀ d : String, fs.isfile (abspath cwd (joinPath d p)) = true →
        dirMatch fs cwd p d = some (abspath cwd (joinPath d p))) := by
  refine ⟨?_, ?_, ?_⟩
  · intro ds₁
    induction ds₁ with
    | nil =>
      intro d ds₂ _ hd
      cases hm : dirMatch fs cwd p d with
      | some c => simp [findInDirs, hm]
      | none => exact absurd hm hd
    | cons d₀ ds₁ ih =>
      intro d ds₂ hnone hd
      have h0 : dirMatch fs cwd p d₀ = none := hnone d₀ (by simp)
      have hrest := ih d ds₂ (fun x hx => hnone x (by simp [hx])) hd
      simp [findInDirs, h0, hrest]
  · intro d hext
    unfold dirMatch
    simp [hext]
  · intro d hf
    unfold dirMatch
    simp [hf]

/-- Witness for C3: `/A` and `/B` both hold `x.txt`; searching `[/A, /B]`
selects the copy in `/A`. -/
theorem resolution_first_dir_wins_w :
    dirMatch fsW "/c" "x.txt" "/A" ≠ none
    ∧ findInDirs fsW "/c" "x.txt" ["/A", "/B"] = dirMatch fsW "/c" "x.txt" "/A"
    ∧ findInDirs fsW "/c" "x.txt" ["/A", "/B"] = some "/A/x.txt" := by
  refine ⟨by decide, ?_, by decide⟩
  exact (resolution_first_dir_wins fsW "/c" "x.txt").1 [] "/A" ["/B"] (by simp) (by decide)

/-- C4: an extension-less identifier found in no work directory (neither as
`<dir>/<id>` nor `<dir>/<id>.txt`, and also not under the current
directory) resolves — without raising — to the best-effort absolute guess,
and the Assembler still writes an output, with the literal
`[Warning: file <path> not found]` placeholder in place of the content. -/
theorem unresolved_gets_placeholder (fs : FS) (cwd p : String) (dirs : List String)
    (hnoext : hasExt p = false)
    (habs : (isabs p && fs.isfile p) = false)
    (hdirs : ∀ d ∈ dirs, dirMatch fs cwd p d = none)
    (hg : fs.isfile (abspath cwd p) = false)
    (hgt : fs.isfile (abspath cwd p ++ ".txt") = false) :
    resolve_file_paths fs cwd [p] dirs = [abspath cwd p]
    ∧ combine_files fs (resolve_file_paths fs cwd [p] dirs) none none false =
        START_SEP ++ " " ++ basename (abspath cwd p) ++ "\n" ++
        ("[Warning: file " ++ SQ ++ abspath cwd p ++ SQ ++ " not found]\n") ++
        "\n" ++ END_SEP ++ " " ++ basename (abspath cwd p) ++ "\n\n" := by
  have hfind := findInDirs_all_none fs cwd p dirs hdirs
  have hres : resolve_one fs cwd dirs p = abspath cwd p := by
    simp [resolve_one, habs, hfind, hnoext, hgt]
  have hlst : resolve_file_paths fs cwd [p] dirs = [abspath cwd p] := by
    simp [resolve_file_paths, hres]
  refine ⟨hlst, ?_⟩
  rw [hlst]
  show "" ++ ("" ++ filesSection fs [abspath cwd p]) = _
  rw [String.empty_append, String.empty_append]
  simp [filesSection, fileBlock, hg, String.append_assoc, String.append_empty]

/-- Witness for C4: the identifier `nofile` exists nowhere on `fsW`; the
run still produces an output containing the placeholder block. -/
theorem unresolved_gets_placeholder_w :
    resolve_file_paths fsW "/c" ["nofile"] ["/A"] = ["/c/nofile"]
    ∧ combine_files fsW (resolve_file_paths fsW "/c" ["nofile"] ["/A"]) none none false =
        START_SEP ++ " " ++ basename "/c/nofile" ++ "\n" ++
        ("[Warning: file " ++ SQ ++ "/c/nofile" ++ SQ ++ " not found]\n") ++
        "\n" ++ END_SEP ++ " " ++ basename "/c/nofile" ++ "\n\n" := by
  have h := unresolved_gets_placeholder fsW "/c" "nofile" ["/A"] (by decide) (by decide)
    (by decide) (by decide) (by decide)
  have he : abspath "/c" "nofile" = "/c/nofile" := by decide
  rw [he] at h
  exact h

/-- C6: directory expansion returns exactly the regular files directly
inside the directory — each result is the directory joined with a listed
name that is a regular file, every such name appears, sub-directories and
anything not a regular file are excluded, and the underlying names are in
lexicographic order; moreover the result is independent of the order in
which the OS reports the raw listing (so a `b.txt, a.txt, c.md` creation
order still yields the lexicographic order). -/
theorem folder_files_sorted_exact (fs : FS) (folder : String) :
    (∃ ns : List String,
        get_files_from_folder fs folder = ns.map (fun n => joinPath folder n)
        ∧ List.Sorted strLe ns
        ∧ (∀ n : String, n ∈ ns ↔ n ∈ fs.listdir folder ∧ fs.isfile (joinPath folder n) = true))
    ∧ (∀ fs2 : FS, fs2.files = fs.files →
        List.Perm (fs2.listdir folder) (fs.listdir folder) →
        get_files_from_folder fs2 folder = get_files_from_folder fs folder) := by
  constructor
  · refine ⟨(sortStrings (fs.listdir folder)).filter (fun n => fs.isfile (joinPath folder n)),
      rfl, ?_, ?_⟩
    · exact (sortStrings_sorted (fs.listdir folder)).filter _
    · intro n
      constructor
      · intro hn
        have hmf := List.mem_filter.mp hn
        exact ⟨(sortStrings_perm _).mem_iff.mp hmf.1, by simpa using hmf.2⟩
      · intro hn
        exact List.mem_filter.mpr ⟨(sortStrings_perm _).mem_iff.mpr hn.1, by simpa using hn.2⟩
  · intro fs2 hfiles hperm
    unfold get_files_from_folder
    have hsame : sortStrings (fs2.listdir folder) = sortStrings (fs.listdir folder) :=
      @List.eq_of_perm_of_sorted String strLe ⟨strLe_antisymm⟩ _ _
        (((sortStrings_perm _).trans hperm).trans (sortStrings_perm _).symm)
        (sortStrings_sorted _) (sortStrings_sorted _)
    have hisf : ∀ q, fs2.isfile q = fs.isfile q := by
      intro q; unfold FS.isfile; rw [hfiles]
    rw [hsame]
    simp only [hisf]

/-- Witness for C6: `/d` listed as `b.txt, a.txt, c.md, sub` (creation
order) expands to `a.txt, b.txt, c.md` joined to `/d`, the sub-directory
excluded, and a permuted raw listing gives the same result. -/
theorem folder_files_sorted_exact_w :
    fsD2.files = fsD.files
    ∧ List.Perm (fsD2.listdir "/d") (fsD.listdir "/d")
    ∧ get_files_from_folder fsD2 "/d" = get_files_from_folder fsD "/d"
    ∧ get_files_from_folder fsD "/d" = ["/d/a.txt", "/d/b.txt", "/d/c.md"] := by
  refine ⟨by decide, by decide, ?_, by decide⟩
  exact (folder_files_sorted_exact fsD "/d").2 fsD2 (by decide) (by decide)
